import Mathlib

/-!
Verification of the `multimodal-vs-unimodal` figure-generation pipeline.

The development shallowly embeds the repository's data transformations:

* `lib/prism/preprocessing/preprocessing.py` — `preprocess_performance_data`
  (drop rows with missing key cells, keep rows whose evaluation metric
  contains "AUC", normalize comma decimals and parse the two score columns);
* `lib/prism/scatterplot_perf_comparison.py` / `visualization.py` —
  the statistics computed by the scatter-plot renderer (elementwise deltas,
  their median, the two threshold counts) and `validate_dataframe`;
* `lib/prism/boxplot.py` / `visualization.py` — `compute_statistics`
  (numpy five-number summary: min, 25th/75th percentile with linear
  interpolation, median, max);
* `lib/prism/prismadiagram.py` / `visualization.py` — `create_box` anchor
  geometry.

Tabular data is modelled as lists of rows whose cells are `Option String`
(`none` = a missing value); numeric values are modelled as rationals `ℚ`.
-/

/-! ## Comma-decimal normalization and float parsing -/

/-- Embeds `col.astype(str).str.replace(",", ".")`: every comma character of
the string is replaced by a period, all other characters are kept. -/
def commaToPeriod (s : String) : String :=
  ⟨s.data.map (fun c => if c = ',' then '.' else c)⟩

/-- All characters of the list are decimal digits. -/
def isDigits (l : List Char) : Bool :=
  l.all Char.isDigit

/-- Value of a list of decimal digit characters read left to right. -/
def digitsVal (l : List Char) : ℕ :=
  l.foldl (fun a c => 10 * a + (c.toNat - 48)) 0

/-- Embeds Python `float(s)` on plain decimal literals: an optional integer
part, an optional single `'.'`, an optional fractional part, at least one
digit overall.  Returns `none` when the string is not such a literal (in the
source, `astype(float)` raises there). -/
def parseDecimal? (s : String) : Option ℚ :=
  let ip := s.data.takeWhile Char.isDigit
  let rest := s.data.dropWhile Char.isDigit
  match rest with
  | [] => if ip.isEmpty then none else some (digitsVal ip)
  | c :: fp =>
    if c = '.' ∧ isDigits fp = true ∧ ¬(ip.isEmpty = true ∧ fp.isEmpty = true) then
      some ((digitsVal ip : ℚ) + (digitsVal fp : ℚ) / (10 : ℚ) ^ fp.length)
    else none

/-- Builds the textual form of a decimal numeral from an integer part, a
fractional part and a separator character (`'.'` or `','`). -/
def mkNumStr (ip fp : List Char) (sep : Char) : String :=
  ⟨ip ++ sep :: fp⟩

/-! ## Substring matching (`Series.str.contains("AUC")`) -/

/-- The pattern is an initial segment of the text. -/
def leadsWith : List Char → List Char → Bool
  | [], _ => true
  | _ :: _, [] => false
  | p :: ps, t :: ts => if p = t then leadsWith ps ts else false

/-- The pattern occurs as a contiguous substring of the text. -/
def containsSub (pat : List Char) : List Char → Bool
  | [] => pat.isEmpty
  | t :: ts => leadsWith pat (t :: ts) || containsSub pat ts

/-- Embeds the case-sensitive substring test `s` contains `"AUC"` used by
`df[evaluation_column].str.contains("AUC", na=False)`. -/
def strContainsAUC (s : String) : Bool :=
  containsSub ['A', 'U', 'C'] s.data

/-! ## Rows and the performance preprocessor -/

/-- One row of the loaded table, restricted to the four designated columns of
`preprocess_performance_data`: the score cells (one per score column), the
evaluation-metric cell and the modality cell.  `none` models a missing value
(pandas `NaN`). -/
structure Row where
  scores : List (Option String)
  evaluation : Option String
  modality : Option String
deriving DecidableEq, Repr

instance : Inhabited Row := ⟨⟨[], none, none⟩⟩

/-- The row has no missing value in any of the designated columns; embeds the
row-retention test of `df.dropna(subset=score_columns + [evaluation_column,
modality_column])`. -/
def rowComplete (r : Row) : Bool :=
  r.scores.all Option.isSome && r.evaluation.isSome && r.modality.isSome

/-- Embeds `df[evaluation_column].str.contains("AUC", na=False)` on one row:
a missing metric counts as `false`. -/
def metricHasAUC (r : Row) : Bool :=
  match r.evaluation with
  | some s => strContainsAUC s
  | none => false

/-- Embeds `df.dropna(subset=score_columns + [evaluation_column,
modality_column])`. -/
def dropnaRows (rows : List Row) : List Row :=
  rows.filter rowComplete

/-- Embeds `df[df[evaluation_column].str.contains("AUC", na=False)]`. -/
def aucRows (rows : List Row) : List Row :=
  rows.filter metricHasAUC

/-- The rows surviving both filtering steps of `preprocess_performance_data`. -/
def keptRows (rows : List Row) : List Row :=
  aucRows (dropnaRows rows)

/-- Embeds the conversion of one score cell:
`str(cell).replace(",", ".")` then `float(...)`; `none` on parse failure. -/
def convertCell : Option String → Option ℚ
  | some s => parseDecimal? (commaToPeriod s)
  | none => none

/-- Converts every score cell of a row; `none` as soon as one cell fails
(the source's `astype(float)` raises on the first bad value). -/
def convertCells : List (Option String) → Option (List ℚ)
  | [] => some []
  | c :: cs =>
    match convertCell c, convertCells cs with
    | some q, some qs => some (q :: qs)
    | _, _ => none

/-- Score conversion for one row. -/
def convertRow (r : Row) : Option (List ℚ) :=
  convertCells r.scores

/-- Score conversion for a list of rows, failing if any row fails. -/
def convertRows : List Row → Option (List (List ℚ))
  | [] => some []
  | r :: rs =>
    match convertRow r, convertRows rs with
    | some q, some qs => some (q :: qs)
    | _, _ => none

/-- Embeds `preprocess_performance_data` from
`lib/prism/preprocessing/preprocessing.py` (and the identical
`preprocess_data` of `scatterplot_perf_comparison.py`): drop rows with
missing key cells, keep AUC rows, convert the score columns, and return the
converted score rows paired with the aligned modality column.  `none` models
the float-conversion failure (an exception in the source). -/
def preprocess_performance_data (rows : List Row) :
    Option (List (List ℚ) × List String) :=
  let kept := keptRows rows
  match convertRows kept with
  | some scoreRows => some (scoreRows, kept.map (fun r => r.modality.getD ""))
  | none => none

/-! ## Scatter-plot statistics (`plot_performance` / `create_performance_plot`) -/

/-- Ascending sort, as `numpy` sorts before taking percentiles. -/
def sortRat (l : List ℚ) : List ℚ :=
  List.insertionSort (· ≤ ·) l

/-- Linear interpolation into a sorted list at fractional index `h`:
`s[⌊h⌋] + (h − ⌊h⌋) · (s[⌊h⌋+1] − s[⌊h⌋])`, numpy's default
(`interpolation='linear'`) percentile kernel. -/
def interpSorted (s : List ℚ) (h : ℚ) : ℚ :=
  let i := (⌊h⌋).toNat
  s.getD i 0 + (h - (i : ℚ)) * (s.getD (i + 1) 0 - s.getD i 0)

/-- Embeds `np.percentile(data, p)`: sort ascending, then linearly
interpolate at index `(n − 1) · p / 100`. -/
def npPercentile (l : List ℚ) (p : ℚ) : ℚ :=
  interpSorted (sortRat l) ((l.length - 1 : ℚ) * p / 100)

/-- Embeds `np.median(data)`, which numpy computes as the 50th percentile
with linear interpolation (middle element, or mean of the two middle
elements). -/
def npMedian (l : List ℚ) : ℚ :=
  npPercentile l 50

/-- Embeds `np.min(data)` (0 on the empty list, which numpy rejects). -/
def npMin : List ℚ → ℚ
  | [] => 0
  | x :: xs => xs.foldl min x

/-- Embeds `np.max(data)` (0 on the empty list, which numpy rejects). -/
def npMax : List ℚ → ℚ
  | [] => 0
  | x :: xs => xs.foldl max x

/-- Embeds `deltas = multimodality_scores - unimodality_scores`
(elementwise, aligned by position). -/
def perfDeltas (uni multi : List ℚ) : List ℚ :=
  List.zipWith (fun m u => m - u) multi uni

/-- Embeds `median_difference = np.median(deltas)`. -/
def median_difference (uni multi : List ℚ) : ℚ :=
  npMedian (perfDeltas uni multi)

/-- Embeds `negative_delta_count = (deltas < 0.01).sum()`. -/
def negative_delta_count (uni multi : List ℚ) : ℕ :=
  (perfDeltas uni multi).countP (fun d => decide (d < 1 / 100))

/-- Embeds `large_improvement_count = (deltas > 0.10).sum()`. -/
def large_improvement_count (uni multi : List ℚ) : ℕ :=
  (perfDeltas uni multi).countP (fun d => decide (10 / 100 < d))

/-- Embeds `total_studies = len(unimodality_scores)`. -/
def total_studies (uni : List ℚ) : ℕ :=
  uni.length

/-! ## Five-number summary (`compute_statistics` of `boxplot.py`) -/

/-- The five scalars returned by `compute_statistics` (its Python dict has
the fixed keys Minimum, First Quartile, Median, Third Quartile, Maximum). -/
structure SummaryStats where
  minimum : ℚ
  firstQuartile : ℚ
  median : ℚ
  thirdQuartile : ℚ
  maximum : ℚ
deriving DecidableEq, Repr

/-- Embeds `compute_statistics` of `lib/prism/boxplot.py` (the same five
values are computed inline by `create_sample_size_plot`). -/
def compute_statistics (data : List ℚ) : SummaryStats :=
  { minimum := npMin data
    firstQuartile := npPercentile data 25
    median := npMedian data
    thirdQuartile := npPercentile data 75
    maximum := npMax data }

/-! ## Column validation (`validate_dataframe` of `utils.py`) -/

/-- Embeds `[col for col in required_columns if col not in df.columns]`. -/
def missingColumns (columns required : List String) : List String :=
  required.filter (fun c => decide (c ∉ columns))

/-- Embeds `validate_dataframe`: error (Python `KeyError`) naming every
absent required column, joined by `", "`, if any is absent; `ok` otherwise. -/
def validate_dataframe (columns required : List String) : Except String Unit :=
  let missing := missingColumns columns required
  if missing.isEmpty then Except.ok ()
  else Except.error ("Missing required columns: " ++ String.intercalate ", " missing)

/-! ## Box anchor geometry (`create_box`) -/

/-- The tuple of key positions returned by `create_box`:
(center, top-center, bottom-center, right-center, left-center). -/
structure BoxAnchors where
  center : ℚ × ℚ
  topCenter : ℚ × ℚ
  bottomCenter : ℚ × ℚ
  rightCenter : ℚ × ℚ
  leftCenter : ℚ × ℚ
deriving DecidableEq, Repr

/-- Embeds the geometry of `create_box` (identical in
`visualization.py` and `prismadiagram.py`): a box at `(x, y)` with the given
width and height exposes the five anchor points computed from those four
numbers alone. -/
def create_box (x y width height : ℚ) : BoxAnchors :=
  { center := (x + width / 2, y + height / 2)
    topCenter := (x + width / 2, y + height)
    bottomCenter := (x + width / 2, y)
    rightCenter := (x + width, y + height / 2)
    leftCenter := (x, y + height / 2) }

/-! ## Heap model of the preprocessor (aliasing, claim about non-mutation)

`preprocess_performance_data` rebinds its local `df` twice (`df.dropna(...)`
and the boolean-mask selection both return fresh frames in pandas) and then
assigns `df[score_columns] = ...` in place — a mutation of the second fresh
frame, never of the caller's frame.  The heap holds every frame object ever
allocated; a frame is an address (index) into it. -/

/-- A frame object: the list of its rows. -/
abbrev Frame := List Row

/-- The value stored by the in-place assignment
`df[score_columns] = df[score_columns].apply(...)`: the same rows with their
score cells replaced by the comma-normalized text (which determines the
stored floats through `parseDecimal?`). -/
def convertedFrame (kept : List Row) : Frame :=
  kept.map (fun r => { r with scores := r.scores.map (Option.map commaToPeriod) })

/-- Heap-level embedding of `preprocess_performance_data`: the caller passes
the address `p` of its frame; `dropna` and the boolean mask allocate fresh
frames at the end of the heap; the in-place score assignment writes only to
the second fresh frame.  Returns the final heap and the function's result
(`none` models the conversion exception, raised before the assignment
happens). -/
def preprocessOnHeap (heap : List Frame) (p : ℕ) :
    List Frame × Option (List (List ℚ) × List String) :=
  let f0 : List Row := heap.getD p []
  let h1 := heap ++ [dropnaRows f0]
  let p1 := heap.length
  let f1 : List Row := h1.getD p1 []
  let h2 := h1 ++ [aucRows f1]
  let p2 := h1.length
  let kept : List Row := h2.getD p2 []
  match convertRows kept with
  | some scoreRows =>
    (h2.set p2 (convertedFrame kept),
      some (scoreRows, kept.map (fun r => r.modality.getD "")))
  | none => (h2, none)

/-! ## Helper lemmas: comma normalization -/

/-- The character-level normalization map. -/
def commaFix (c : Char) : Char :=
  if c = ',' then '.' else c

theorem commaToPeriod_eq_map (s : String) :
    commaToPeriod s = ⟨s.data.map commaFix⟩ := rfl

theorem commaFix_commaFix (c : Char) : commaFix (commaFix c) = commaFix c := by
  by_cases h : c = ','
  · simp [commaFix, h]
  · simp [commaFix, h]

theorem commaFix_of_digit {c : Char} (h : c.isDigit = true) : commaFix c = c := by
  have hne : c ≠ ',' := by
    intro he
    rw [he] at h
    exact absurd h (by decide)
  simp [commaFix, hne]

theorem map_commaFix_of_digits {l : List Char} (h : isDigits l = true) :
    l.map commaFix = l := by
  induction l with
  | nil => rfl
  | cons c cs ih =>
    have hc : c.isDigit = true ∧ isDigits cs = true := by
      simpa [isDigits, List.all_cons, Bool.and_eq_true] using h
    simp [commaFix_of_digit hc.1, ih hc.2]

theorem commaToPeriod_mkNumStr {ip fp : List Char} {sep : Char}
    (hip : isDigits ip = true) (hfp : isDigits fp = true)
    (hsep : sep = '.' ∨ sep = ',') :
    commaToPeriod (mkNumStr ip fp sep) = mkNumStr ip fp '.' := by
  have hsep' : commaFix sep = '.' := by
    rcases hsep with h | h <;> simp [commaFix, h]
  show (⟨(ip ++ sep :: fp).map commaFix⟩ : String) = ⟨ip ++ '.' :: fp⟩
  rw [List.map_append, List.map_cons, map_commaFix_of_digits hip,
    map_commaFix_of_digits hfp, hsep']

theorem takeWhile_digits_append (fp : List Char) {ip : List Char} (hip : isDigits ip = true) :
    (ip ++ '.' :: fp).takeWhile Char.isDigit = ip ∧
      (ip ++ '.' :: fp).dropWhile Char.isDigit = '.' :: fp := by
  induction ip with
  | nil => constructor <;> simp [List.takeWhile_cons, List.dropWhile_cons]
  | cons c cs ih =>
    have hc : c.isDigit = true ∧ isDigits cs = true := by
      simpa [isDigits, List.all_cons, Bool.and_eq_true] using hip
    have ih' := ih hc.2
    constructor
    · simp [List.takeWhile_cons, hc.1, ih'.1]
    · simp [List.dropWhile_cons, hc.1, ih'.2]

theorem parseDecimal?_mkNumStr {ip fp : List Char}
    (hip : isDigits ip = true) (hfp : isDigits fp = true)
    (hne : ip ++ fp ≠ []) :
    parseDecimal? (mkNumStr ip fp '.') =
      some ((digitsVal ip : ℚ) + (digitsVal fp : ℚ) / (10 : ℚ) ^ fp.length) := by
  have hsplit := takeWhile_digits_append fp hip
  have hcond : ¬((ip : List Char).isEmpty = true ∧ (fp : List Char).isEmpty = true) := by
    rintro ⟨h1, h2⟩
    rw [List.isEmpty_iff] at h1 h2
    exact hne (by rw [h1, h2]; rfl)
  have hcond2 : ip = [] → ¬fp = [] := by
    intro h1 h2
    exact hne (by rw [h1, h2]; rfl)
  show parseDecimal? ⟨ip ++ '.' :: fp⟩ = _
  rw [parseDecimal?]
  simp only [hsplit.1, hsplit.2]
  simp [hfp, hcond]
  exact hcond2

/-- C1.  Comma-decimal normalization in the performance preprocessor is
idempotent and total: on every numeric string (digits around a single `'.'`
or `','`, at least one digit), replacing commas by periods and parsing
yields the same value as parsing the period form and always succeeds, and
the normalization is idempotent on every string. -/
theorem comma_decimal_normalization_ok :
    (∀ s : String, commaToPeriod (commaToPeriod s) = commaToPeriod s) ∧
    (∀ (ip fp : List Char) (sep : Char), isDigits ip = true → isDigits fp = true →
      ip ++ fp ≠ [] → (sep = '.' ∨ sep = ',') →
      parseDecimal? (commaToPeriod (mkNumStr ip fp sep)) =
          parseDecimal? (mkNumStr ip fp '.') ∧
        (parseDecimal? (commaToPeriod (mkNumStr ip fp sep))).isSome = true) := by
  constructor
  · intro s
    rw [commaToPeriod_eq_map, commaToPeriod_eq_map]
    show (⟨(s.data.map commaFix).map commaFix⟩ : String) = _
    rw [List.map_map]
    congr 1
    exact List.map_congr_left (fun c _ => commaFix_commaFix c)
  · intro ip fp sep hip hfp hne hsep
    rw [commaToPeriod_mkNumStr hip hfp hsep]
    refine ⟨rfl, ?_⟩
    rw [parseDecimal?_mkNumStr hip hfp hne]
    rfl

/-- Witness for C1 at the spec's example: `"0,87"` normalizes to the same
parse as `"0.87"`, and that value is `87/100`. -/
theorem comma_decimal_normalization_witness :
    parseDecimal? (commaToPeriod (mkNumStr ['0'] ['8', '7'] ',')) =
        parseDecimal? (mkNumStr ['0'] ['8', '7'] '.') ∧
      parseDecimal? (mkNumStr ['0'] ['8', '7'] '.') = some (87 / 100) := by
  refine ⟨(comma_decimal_normalization_ok.2 ['0'] ['8', '7'] ','
    (by decide) (by decide) (by decide) (Or.inr rfl)).1, ?_⟩
  rw [parseDecimal?_mkNumStr (by decide) (by decide) (by decide)]
  have h1 : digitsVal ['0'] = 0 := by decide
  have h2 : digitsVal ['8', '7'] = 87 := by decide
  rw [h1, h2]
  norm_num

/-- C2.  A row survives the preprocessor's filter exactly when it has no
missing value in the designated columns and its evaluation-metric text
contains the substring `"AUC"`. -/
theorem auc_filter_membership :
    ∀ (rows : List Row) (r : Row),
      r ∈ keptRows rows ↔
        r ∈ rows ∧ rowComplete r = true ∧ metricHasAUC r = true := by
  intro rows r
  simp only [keptRows, aucRows, dropnaRows, List.mem_filter]
  tauto

/-- Witness for C2 at the spec's example: of three complete rows with
metrics `"AUC-ROC"`, `"Accuracy"`, `"AUC"`, rows 1 and 3 are retained and
row 2 is dropped. -/
theorem auc_filter_membership_witness :
    (⟨[some "0.9"], some "AUC-ROC", some "CT"⟩ : Row) ∈
        keptRows [⟨[some "0.9"], some "AUC-ROC", some "CT"⟩,
          ⟨[some "0.8"], some "Accuracy", some "MRI"⟩,
          ⟨[some "0.7"], some "AUC", some "EHR"⟩] ∧
      (⟨[some "0.7"], some "AUC", some "EHR"⟩ : Row) ∈
        keptRows [⟨[some "0.9"], some "AUC-ROC", some "CT"⟩,
          ⟨[some "0.8"], some "Accuracy", some "MRI"⟩,
          ⟨[some "0.7"], some "AUC", some "EHR"⟩] ∧
      keptRows [⟨[some "0.9"], some "AUC-ROC", some "CT"⟩,
          ⟨[some "0.8"], some "Accuracy", some "MRI"⟩,
          ⟨[some "0.7"], some "AUC", some "EHR"⟩] =
        [⟨[some "0.9"], some "AUC-ROC", some "CT"⟩,
          ⟨[some "0.7"], some "AUC", some "EHR"⟩] := by
  refine ⟨(auc_filter_membership _ _).mpr (by decide),
    (auc_filter_membership _ _).mpr (by decide), by decide⟩

/-! ## Helper lemmas: pointwise behaviour of the score conversion -/

theorem convertRows_some_pointwise :
    ∀ (l : List Row) (ys : List (List ℚ)), convertRows l = some ys →
      ys.length = l.length ∧
        ∀ i, i < l.length → convertRow (l.getD i default) = some (ys.getD i []) := by
  intro l
  induction l with
  | nil =>
    intro ys h
    have hy : ys = [] := by
      simpa [convertRows] using h.symm
    subst hy
    exact ⟨rfl, fun i hi => absurd hi (by simp)⟩
  | cons r rs ih =>
    intro ys h
    rw [convertRows] at h
    cases hr : convertRow r with
    | none => rw [hr] at h; exact absurd h (by simp)
    | some q =>
      cases hrs : convertRows rs with
      | none => rw [hr, hrs] at h; exact absurd h (by simp)
      | some qs =>
        rw [hr, hrs] at h
        have hy : ys = q :: qs := by
          simpa using h.symm
        subst hy
        obtain ⟨hlen, hpt⟩ := ih qs hrs
        refine ⟨by simp [hlen], ?_⟩
        intro i hi
        cases i with
        | zero => simpa using hr
        | succ j =>
          have hj : j < rs.length := by simpa using hi
          simpa using hpt j hj

theorem keptRows_complete {rows : List Row} {r : Row} (h : r ∈ keptRows rows) :
    rowComplete r = true :=
  ((auc_filter_membership rows r).mp h).2.1

theorem rowComplete_modality {r : Row} (h : rowComplete r = true) :
    r.modality = some (r.modality.getD "") := by
  have : r.modality.isSome = true := by
    have := h
    rw [rowComplete, Bool.and_eq_true, Bool.and_eq_true] at this
    exact this.2
  cases hm : r.modality with
  | none => rw [hm] at this; exact absurd this (by simp)
  | some v => rfl

/-- C3.  Row-alignment invariant: when `preprocess_performance_data`
succeeds, the returned score rows and modality entries have the length of
the surviving-row list, and position `i` of both outputs is computed from
the same surviving row. -/
theorem preprocess_alignment :
    ∀ (rows : List Row) (scores : List (List ℚ)) (mods : List String),
      preprocess_performance_data rows = some (scores, mods) →
      scores.length = (keptRows rows).length ∧
        mods.length = (keptRows rows).length ∧
        ∀ i, i < (keptRows rows).length →
          convertRow ((keptRows rows).getD i default) = some (scores.getD i []) ∧
            ((keptRows rows).getD i default).modality = some (mods.getD i "") := by
  intro rows scores mods h
  rw [preprocess_performance_data] at h
  cases hc : convertRows (keptRows rows) with
  | none => rw [hc] at h; exact absurd h (by simp)
  | some scoreRows =>
    rw [hc] at h
    have hs : scores = scoreRows ∧ mods = (keptRows rows).map (fun r => r.modality.getD "") := by
      have h' := h
      simp only [Option.some.injEq, Prod.mk.injEq] at h'
      exact ⟨h'.1.symm, h'.2.symm⟩
    obtain ⟨hs1, hs2⟩ := hs
    subst hs1
    subst hs2
    obtain ⟨hlen, hpt⟩ := convertRows_some_pointwise _ _ hc
    refine ⟨hlen, by simp, ?_⟩
    intro i hi
    refine ⟨hpt i hi, ?_⟩
    have hmem : (keptRows rows).getD i default ∈ keptRows rows := by
      rw [List.getD_eq_getElem _ _ hi]
      exact List.getElem_mem hi
    have hcomp := keptRows_complete hmem
    have hmap : ((keptRows rows).map (fun r => r.modality.getD "")).getD i ""
        = ((keptRows rows).getD i default).modality.getD "" := by
      rw [List.getD_eq_getElem _ _ (by simpa using hi), List.getElem_map,
        List.getD_eq_getElem _ _ hi]
    rw [hmap]
    exact rowComplete_modality hcomp

/-- Witness for C3: a one-row table with a comma-decimal score survives
preprocessing and the outputs stay aligned with the surviving row. -/
theorem preprocess_alignment_witness :
    preprocess_performance_data [⟨[some "0,87"], some "AUC", some "CT"⟩] =
        some ([[87 / 100]], ["CT"]) ∧
      ([[(87 : ℚ) / 100]]).length =
        (keptRows [⟨[some "0,87"], some "AUC", some "CT"⟩]).length := by
  have hpre : preprocess_performance_data [⟨[some "0,87"], some "AUC", some "CT"⟩] =
      some ([[87 / 100]], ["CT"]) := by
    simp +decide [preprocess_performance_data, keptRows, aucRows, dropnaRows, convertRows,
      convertRow, convertCells, convertCell, parseDecimal?, commaToPeriod, digitsVal,
      rowComplete, metricHasAUC, strContainsAUC, containsSub, leadsWith]
    norm_num
  exact ⟨hpre, (preprocess_alignment _ _ _ hpre).1⟩

/-! ## Helper lemmas: elementwise deltas -/

theorem perfDeltas_getD (uni multi : List ℚ) (i : ℕ)
    (hi : i < (perfDeltas uni multi).length) :
    (perfDeltas uni multi).getD i 0 = multi.getD i 0 - uni.getD i 0 := by
  have hlen : (perfDeltas uni multi).length = min multi.length uni.length :=
    List.length_zipWith _ _ _
  have hm : i < multi.length := lt_of_lt_of_le hi (by rw [hlen]; exact min_le_left _ _)
  have hu : i < uni.length := lt_of_lt_of_le hi (by rw [hlen]; exact min_le_right _ _)
  rw [List.getD_eq_getElem _ _ hi, List.getD_eq_getElem _ _ hm, List.getD_eq_getElem _ _ hu]
  exact List.getElem_zipWith

/-- C4.  The median difference reported by the scatter-plot renderer is the
numpy median of the list of elementwise differences, whose `i`-th element is
`multi[i] − uni[i]`. -/
theorem median_difference_spec :
    ∀ uni multi : List ℚ,
      median_difference uni multi = npMedian (perfDeltas uni multi) ∧
        (perfDeltas uni multi).length = min multi.length uni.length ∧
        ∀ i, i < (perfDeltas uni multi).length →
          (perfDeltas uni multi).getD i 0 = multi.getD i 0 - uni.getD i 0 := by
  intro uni multi
  exact ⟨rfl, List.length_zipWith _ _ _, perfDeltas_getD uni multi⟩

/-- Witness for C4 at the spec's example: baseline `[0.6, 0.7, 0.8]` and
comparison `[0.65, 0.72, 0.95]` give differences `[0.05, 0.02, 0.15]` with
median `0.05`. -/
theorem median_difference_witness :
    perfDeltas [6/10, 7/10, 8/10] [65/100, 72/100, 95/100] = [5/100, 2/100, 15/100] ∧
      median_difference [6/10, 7/10, 8/10] [65/100, 72/100, 95/100] = 5/100 := by
  have hd : perfDeltas [6/10, 7/10, 8/10] [65/100, 72/100, 95/100]
      = [5/100, 2/100, 15/100] := by
    norm_num [perfDeltas]
  refine ⟨hd, ?_⟩
  rw [(median_difference_spec [6/10, 7/10, 8/10] [65/100, 72/100, 95/100]).1, hd]
  rw [npMedian, npPercentile]
  have hsort : sortRat [5/100, 2/100, 15/100] = [2/100, 5/100, 15/100] := by
    norm_num [sortRat, List.insertionSort, List.orderedInsert]
  rw [hsort]
  rw [interpSorted]
  norm_num

/-- C5.  The two threshold counts reported by the renderer count exactly the
rows whose difference is strictly below `0.01`, respectively strictly above
`0.10`. -/
theorem threshold_counts_spec :
    ∀ uni multi : List ℚ,
      negative_delta_count uni multi =
          ((perfDeltas uni multi).filter (fun d => decide (d < 1 / 100))).length ∧
        large_improvement_count uni multi =
          ((perfDeltas uni multi).filter (fun d => decide (10 / 100 < d))).length := by
  intro uni multi
  exact ⟨List.countP_eq_length_filter _ _, List.countP_eq_length_filter _ _⟩

/-- Witness for C5 (amended) at the example differences
`[0.05, 0.02, 0.15, −0.01, 0.12]`: only `−0.01` is below `0.01`, so that
count is 1, and `0.15` and `0.12` are above `0.10`, so that count is 2. -/
theorem threshold_counts_witness :
    negative_delta_count [0, 0, 0, 0, 0] [5/100, 2/100, 15/100, -1/100, 12/100] = 1 ∧
      large_improvement_count [0, 0, 0, 0, 0] [5/100, 2/100, 15/100, -1/100, 12/100] = 2 := by
  have h := threshold_counts_spec [0, 0, 0, 0, 0] [5/100, 2/100, 15/100, -1/100, 12/100]
  have hd : perfDeltas [0, 0, 0, 0, 0] [5/100, 2/100, 15/100, -1/100, 12/100]
      = [5/100, 2/100, 15/100, -1/100, 12/100] := by
    norm_num [perfDeltas]
  refine ⟨h.1.trans ?_, h.2.trans ?_⟩ <;>
    rw [hd] <;> norm_num [List.filter]

/-- Counterexample to C5 as stated: on the claimed differences the count
below `0.01` computed by the code is 1, not 2 (only `−0.01` is below
`0.01`; `0.02` is not). -/
theorem threshold_counts_counterexample :
    ¬(negative_delta_count [0, 0, 0, 0, 0] [5/100, 2/100, 15/100, -1/100, 12/100] = 2) := by
  have hd : perfDeltas [0, 0, 0, 0, 0] [5/100, 2/100, 15/100, -1/100, 12/100]
      = [5/100, 2/100, 15/100, -1/100, 12/100] := by
    norm_num [perfDeltas]
  rw [negative_delta_count, hd]
  norm_num [List.countP, List.countP.go]

/-! ## Helper lemmas: minimum, maximum, sorted access -/

theorem foldl_min_le (xs : List ℚ) (a : ℚ) :
    xs.foldl min a ≤ a ∧ ∀ x ∈ xs, xs.foldl min a ≤ x := by
  induction xs generalizing a with
  | nil => exact ⟨le_refl a, by simp⟩
  | cons y ys ih =>
    have h := ih (min a y)
    refine ⟨le_trans h.1 (min_le_left a y), ?_⟩
    intro x hx
    rcases List.mem_cons.mp hx with hxy | hxs
    · subst hxy
      exact le_trans h.1 (min_le_right a x)
    · exact h.2 x hxs

theorem le_foldl_max (xs : List ℚ) (a : ℚ) :
    a ≤ xs.foldl max a ∧ ∀ x ∈ xs, x ≤ xs.foldl max a := by
  induction xs generalizing a with
  | nil => exact ⟨le_refl a, by simp⟩
  | cons y ys ih =>
    have h := ih (max a y)
    refine ⟨le_trans (le_max_left a y) h.1, ?_⟩
    intro x hx
    rcases List.mem_cons.mp hx with hxy | hxs
    · subst hxy
      exact le_trans (le_max_right a x) h.1
    · exact h.2 x hxs

theorem npMin_le {l : List ℚ} {x : ℚ} (h : x ∈ l) : npMin l ≤ x := by
  cases l with
  | nil => exact absurd h (by simp)
  | cons y ys =>
    rcases List.mem_cons.mp h with hxy | hxs
    · subst hxy
      exact (foldl_min_le ys x).1
    · exact (foldl_min_le ys y).2 x hxs

theorem le_npMax {l : List ℚ} {x : ℚ} (h : x ∈ l) : x ≤ npMax l := by
  cases l with
  | nil => exact absurd h (by simp)
  | cons y ys =>
    rcases List.mem_cons.mp h with hxy | hxs
    · subst hxy
      exact (le_foldl_max ys x).1
    · exact (le_foldl_max ys y).2 x hxs

theorem sorted_getD_mono {s : List ℚ} (hs : s.Sorted (· ≤ ·)) {i j : ℕ}
    (hij : i ≤ j) (hj : j < s.length) : s.getD i 0 ≤ s.getD j 0 := by
  have hi : i < s.length := Nat.lt_of_le_of_lt hij hj
  rw [List.getD_eq_getElem _ _ hi, List.getD_eq_getElem _ _ hj]
  rcases Nat.lt_or_ge i j with hlt | hge
  · have hrel := @List.Sorted.rel_get_of_lt ℚ (· ≤ ·) s hs
      ⟨i, hi⟩ ⟨j, hj⟩ (Fin.mk_lt_mk.mpr hlt)
    simpa using hrel
  · have hij' : i = j := le_antisymm hij hge
    subst hij'
    exact le_refl _

/-! ## Helper lemmas: floor index and linear interpolation -/

theorem floorNat_cast {h : ℚ} (h0 : 0 ≤ h) : (((⌊h⌋).toNat : ℕ) : ℚ) = (⌊h⌋ : ℚ) := by
  have hnn : (0 : ℤ) ≤ ⌊h⌋ := Int.le_floor.mpr (by exact_mod_cast h0)
  have h2 : (((⌊h⌋).toNat : ℕ) : ℤ) = ⌊h⌋ := Int.toNat_of_nonneg hnn
  exact_mod_cast h2

theorem floorNat_le {h : ℚ} (h0 : 0 ≤ h) : (((⌊h⌋).toNat : ℕ) : ℚ) ≤ h := by
  rw [floorNat_cast h0]
  exact Int.floor_le h

theorem lt_floorNat_add_one {h : ℚ} (h0 : 0 ≤ h) : h < (((⌊h⌋).toNat : ℕ) : ℚ) + 1 := by
  rw [floorNat_cast h0]
  exact Int.lt_floor_add_one h

theorem floorNat_lt_length {s : List ℚ} {h : ℚ} (h0 : 0 ≤ h)
    (hub : h ≤ (s.length : ℚ) - 1) : (⌊h⌋).toNat < s.length := by
  have hile := floorNat_le h0
  have hq : (((⌊h⌋).toNat : ℕ) : ℚ) < (s.length : ℚ) := by linarith
  exact_mod_cast hq

theorem interp_lower {s : List ℚ} (hs : s.Sorted (· ≤ ·)) {h : ℚ}
    (h0 : 0 ≤ h) (hub : h ≤ (s.length : ℚ) - 1) :
    s.getD (⌊h⌋).toNat 0 ≤ interpSorted s h := by
  have hile := floorNat_le h0
  have hin : (⌊h⌋).toNat < s.length := floorNat_lt_length h0 hub
  simp only [interpSorted]
  by_cases hcase : (⌊h⌋).toNat + 1 < s.length
  · have hd : s.getD (⌊h⌋).toNat 0 ≤ s.getD ((⌊h⌋).toNat + 1) 0 :=
      sorted_getD_mono hs (Nat.le_succ _) hcase
    have key := mul_nonneg (sub_nonneg.mpr hile) (sub_nonneg.mpr hd)
    linarith [key]
  · have hn : (⌊h⌋).toNat + 1 = s.length := by omega
    have hlen : ((s.length : ℕ) : ℚ) = (((⌊h⌋).toNat : ℕ) : ℚ) + 1 := by
      rw [← hn]
      push_cast
      ring
    have hfrac : h - (((⌊h⌋).toNat : ℕ) : ℚ) = 0 := by linarith
    rw [hfrac]
    simp

theorem interp_upper {s : List ℚ} (hs : s.Sorted (· ≤ ·)) {h : ℚ}
    (h0 : 0 ≤ h) (hcase : (⌊h⌋).toNat + 1 < s.length) :
    interpSorted s h ≤ s.getD ((⌊h⌋).toNat + 1) 0 := by
  have hile := floorNat_le h0
  have hlt1 := lt_floorNat_add_one h0
  have hd : s.getD (⌊h⌋).toNat 0 ≤ s.getD ((⌊h⌋).toNat + 1) 0 :=
    sorted_getD_mono hs (Nat.le_succ _) hcase
  simp only [interpSorted]
  nlinarith [mul_nonneg (sub_nonneg.mpr hd)
    (by linarith : (0 : ℚ) ≤ 1 - (h - (((⌊h⌋).toNat : ℕ) : ℚ)))]

theorem interp_le_sorted_elem {s : List ℚ} (hs : s.Sorted (· ≤ ·)) {h : ℚ}
    (h0 : 0 ≤ h) (hub : h ≤ (s.length : ℚ) - 1) :
    ∃ j, j < s.length ∧ interpSorted s h ≤ s.getD j 0 := by
  by_cases hcase : (⌊h⌋).toNat + 1 < s.length
  · exact ⟨_, hcase, interp_upper hs h0 hcase⟩
  · have hile := floorNat_le h0
    have hin : (⌊h⌋).toNat < s.length := floorNat_lt_length h0 hub
    refine ⟨(⌊h⌋).toNat, hin, ?_⟩
    have hn : (⌊h⌋).toNat + 1 = s.length := by omega
    have hlen : ((s.length : ℕ) : ℚ) = (((⌊h⌋).toNat : ℕ) : ℚ) + 1 := by
      rw [← hn]
      push_cast
      ring
    have hfrac : h - (((⌊h⌋).toNat : ℕ) : ℚ) = 0 := by linarith
    simp only [interpSorted]
    rw [hfrac]
    simp

theorem interp_mono {s : List ℚ} (hs : s.Sorted (· ≤ ·)) {h₁ h₂ : ℚ}
    (h1 : 0 ≤ h₁) (h12 : h₁ ≤ h₂) (hub : h₂ ≤ (s.length : ℚ) - 1) :
    interpSorted s h₁ ≤ interpSorted s h₂ := by
  have h2 : 0 ≤ h₂ := le_trans h1 h12
  have hmono : (⌊h₁⌋).toNat ≤ (⌊h₂⌋).toNat := Int.toNat_le_toNat (Int.floor_mono h12)
  have hin₂ : (⌊h₂⌋).toNat < s.length := floorNat_lt_length h2 hub
  rcases Nat.lt_or_ge (⌊h₁⌋).toNat (⌊h₂⌋).toNat with hlt | hge
  · have hcase : (⌊h₁⌋).toNat + 1 < s.length :=
      Nat.lt_of_le_of_lt (Nat.succ_le_of_lt hlt) hin₂
    calc interpSorted s h₁ ≤ s.getD ((⌊h₁⌋).toNat + 1) 0 := interp_upper hs h1 hcase
      _ ≤ s.getD (⌊h₂⌋).toNat 0 := sorted_getD_mono hs (Nat.succ_le_of_lt hlt) hin₂
      _ ≤ interpSorted s h₂ := interp_lower hs h2 hub
  · have heq : (⌊h₁⌋).toNat = (⌊h₂⌋).toNat := le_antisymm hmono hge
    have hile₁ : (((⌊h₁⌋).toNat : ℕ) : ℚ) ≤ h₁ := floorNat_le h1
    have hile₂ : (((⌊h₂⌋).toNat : ℕ) : ℚ) ≤ h₂ := floorNat_le h2
    simp only [interpSorted]
    rw [heq]
    by_cases hcase : (⌊h₂⌋).toNat + 1 < s.length
    · have hd : s.getD (⌊h₂⌋).toNat 0 ≤ s.getD ((⌊h₂⌋).toNat + 1) 0 :=
        sorted_getD_mono hs (Nat.le_succ _) hcase
      have key := mul_le_mul_of_nonneg_right
        (show h₁ - (((⌊h₂⌋).toNat : ℕ) : ℚ) ≤ h₂ - (((⌊h₂⌋).toNat : ℕ) : ℚ) by linarith)
        (sub_nonneg.mpr hd)
      linarith [key]
    · have hn : (⌊h₂⌋).toNat + 1 = s.length := by omega
      have hlen : ((s.length : ℕ) : ℚ) = (((⌊h₂⌋).toNat : ℕ) : ℚ) + 1 := by
        rw [← hn]
        push_cast
        ring
      have hfrac₂ : h₂ - (((⌊h₂⌋).toNat : ℕ) : ℚ) = 0 := by linarith
      have hfrac₁ : h₁ - (((⌊h₂⌋).toNat : ℕ) : ℚ) = 0 := by
        have h1le : (((⌊h₂⌋).toNat : ℕ) : ℚ) ≤ h₁ := by
          rw [← heq]
          exact hile₁
        linarith
      rw [hfrac₁, hfrac₂]

/-- C6.  Five-number-summary ordering invariant: on every non-empty series
the statistics computed by `compute_statistics` satisfy
minimum ≤ first quartile ≤ median ≤ third quartile ≤ maximum. -/
theorem five_number_summary_ordered :
    ∀ l : List ℚ, l ≠ [] →
      (compute_statistics l).minimum ≤ (compute_statistics l).firstQuartile ∧
        (compute_statistics l).firstQuartile ≤ (compute_statistics l).median ∧
        (compute_statistics l).median ≤ (compute_statistics l).thirdQuartile ∧
        (compute_statistics l).thirdQuartile ≤ (compute_statistics l).maximum := by
  intro l hne
  have hs : (sortRat l).Sorted (· ≤ ·) := List.sorted_insertionSort _ l
  have hperm : (sortRat l).Perm l := List.perm_insertionSort _ l
  have hlen : (sortRat l).length = l.length := hperm.length_eq
  have hlenq : (((sortRat l).length : ℕ) : ℚ) = ((l.length : ℕ) : ℚ) := by
    exact_mod_cast hlen
  have hpos : 0 < l.length := List.length_pos.mpr hne
  have h1n : (1 : ℚ) ≤ (l.length : ℚ) := by exact_mod_cast hpos
  have hnn : (0 : ℚ) ≤ ((l.length : ℚ) - 1) := by linarith
  have h25nn : (0 : ℚ) ≤ ((l.length : ℚ) - 1) * 25 / 100 :=
    div_nonneg (mul_nonneg hnn (by norm_num)) (by norm_num)
  have h50nn : (0 : ℚ) ≤ ((l.length : ℚ) - 1) * 50 / 100 :=
    div_nonneg (mul_nonneg hnn (by norm_num)) (by norm_num)
  have h2550 : ((l.length : ℚ) - 1) * 25 / 100 ≤ ((l.length : ℚ) - 1) * 50 / 100 := by
    nlinarith [hnn]
  have h5075 : ((l.length : ℚ) - 1) * 50 / 100 ≤ ((l.length : ℚ) - 1) * 75 / 100 := by
    nlinarith [hnn]
  have h75nn : (0 : ℚ) ≤ ((l.length : ℚ) - 1) * 75 / 100 :=
    div_nonneg (mul_nonneg hnn (by norm_num)) (by norm_num)
  have hub25 : ((l.length : ℚ) - 1) * 25 / 100 ≤ (((sortRat l).length : ℕ) : ℚ) - 1 := by
    rw [hlenq]
    nlinarith [hnn]
  have hub50 : ((l.length : ℚ) - 1) * 50 / 100 ≤ (((sortRat l).length : ℕ) : ℚ) - 1 := by
    rw [hlenq]
    nlinarith [hnn]
  have hub75 : ((l.length : ℚ) - 1) * 75 / 100 ≤ (((sortRat l).length : ℕ) : ℚ) - 1 := by
    rw [hlenq]
    nlinarith [hnn]
  have e25 : npPercentile l 25 = interpSorted (sortRat l) (((l.length : ℚ) - 1) * 25 / 100) := rfl
  have e50 : npPercentile l 50 = interpSorted (sortRat l) (((l.length : ℚ) - 1) * 50 / 100) := rfl
  have e75 : npPercentile l 75 = interpSorted (sortRat l) (((l.length : ℚ) - 1) * 75 / 100) := rfl
  refine ⟨?_, ?_, ?_, ?_⟩
  · show npMin l ≤ npPercentile l 25
    rw [e25]
    refine le_trans ?_ (interp_lower hs h25nn hub25)
    have hin := floorNat_lt_length h25nn hub25
    have hmem : (sortRat l).getD ((⌊((l.length : ℚ) - 1) * 25 / 100⌋).toNat) 0 ∈ sortRat l := by
      rw [List.getD_eq_getElem _ _ hin]
      exact List.getElem_mem hin
    exact npMin_le (hperm.mem_iff.mp hmem)
  · show npPercentile l 25 ≤ npMedian l
    rw [npMedian, e25, e50]
    exact interp_mono hs h25nn h2550 hub50
  · show npMedian l ≤ npPercentile l 75
    rw [npMedian, e50, e75]
    exact interp_mono hs h50nn h5075 hub75
  · show npPercentile l 75 ≤ npMax l
    rw [e75]
    obtain ⟨j, hj, hle⟩ := interp_le_sorted_elem hs h75nn hub75
    have hmem : (sortRat l).getD j 0 ∈ sortRat l := by
      rw [List.getD_eq_getElem _ _ hj]
      exact List.getElem_mem hj
    exact le_trans hle (le_npMax (hperm.mem_iff.mp hmem))

/-- Witness for C6 on the spec's end-to-end sample sizes `[10, 100, 1000]`. -/
theorem five_number_summary_ordered_witness :
    (compute_statistics [10, 100, 1000]).minimum ≤
        (compute_statistics [10, 100, 1000]).firstQuartile ∧
      (compute_statistics [10, 100, 1000]).firstQuartile ≤
        (compute_statistics [10, 100, 1000]).median ∧
      (compute_statistics [10, 100, 1000]).median ≤
        (compute_statistics [10, 100, 1000]).thirdQuartile ∧
      (compute_statistics [10, 100, 1000]).thirdQuartile ≤
        (compute_statistics [10, 100, 1000]).maximum :=
  five_number_summary_ordered [10, 100, 1000] (by simp)

/-- C7.  `validate_dataframe` succeeds exactly when every required column is
present (extra columns are irrelevant); its missing-column list contains
exactly the absent required columns; and on failure the error names all of
them, joined by `", "`. -/
theorem validate_dataframe_spec :
    ∀ columns required : List String,
      (validate_dataframe columns required = Except.ok () ↔
          ∀ c ∈ required, c ∈ columns) ∧
        (∀ c, c ∈ missingColumns columns required ↔ c ∈ required ∧ c ∉ columns) ∧
        (missingColumns columns required ≠ [] →
          validate_dataframe columns required =
            Except.error ("Missing required columns: " ++
              String.intercalate ", " (missingColumns columns required))) := by
  intro columns required
  refine ⟨?_, ?_, ?_⟩
  · rw [validate_dataframe]
    by_cases hmiss : (missingColumns columns required).isEmpty = true
    · simp only [hmiss, if_true]
      constructor
      · intro _ c hc
        rw [List.isEmpty_iff] at hmiss
        by_contra hac
        have : c ∈ missingColumns columns required := by
          rw [missingColumns, List.mem_filter]
          exact ⟨hc, by simpa using hac⟩
        rw [hmiss] at this
        exact absurd this (by simp)
      · intro _
        trivial
    · simp only [hmiss, if_false]
      constructor
      · intro habs
        exact absurd habs (by simp)
      · intro hall
        exfalso
        apply hmiss
        rw [List.isEmpty_iff, missingColumns, List.filter_eq_nil_iff]
        intro c hc
        simpa using hall c hc
  · intro c
    rw [missingColumns, List.mem_filter]
    simp
  · intro hne
    rw [validate_dataframe]
    have : (missingColumns columns required).isEmpty = false := by
      rw [List.isEmpty_eq_false_iff_exists_mem]
      exact List.exists_mem_of_ne_nil _ hne
    simp [this]

/-- Witness for C7: validation accepts a table with an extra column, and a
table missing both `"b"` and `"c"` is rejected with an error naming both. -/
theorem validate_dataframe_spec_witness :
    validate_dataframe ["a", "x"] ["a"] = Except.ok () ∧
      validate_dataframe ["a"] ["a", "b", "c"] =
        Except.error "Missing required columns: b, c" := by
  refine ⟨(validate_dataframe_spec ["a", "x"] ["a"]).1.mpr (by decide), ?_⟩
  have h := (validate_dataframe_spec ["a"] ["a", "b", "c"]).2.2 (by decide)
  rw [h]
  rfl

/-- C8.  `create_box` at position `(x, y)` with width `w` and height `h`
exposes exactly the five anchor points claimed by the spec; the layout is a
pure function of those four numbers. -/
theorem create_box_anchor_points :
    ∀ x y w h : ℚ,
      (create_box x y w h).center = (x + w / 2, y + h / 2) ∧
        (create_box x y w h).topCenter = (x + w / 2, y + h) ∧
        (create_box x y w h).bottomCenter = (x + w / 2, y) ∧
        (create_box x y w h).rightCenter = (x + w, y + h / 2) ∧
        (create_box x y w h).leftCenter = (x, y + h / 2) := by
  intro x y w h
  exact ⟨rfl, rfl, rfl, rfl, rfl⟩

/-- Witness for C8 at the first diagram box (`x=2, y=12`, default size
`4 × 1.8`). -/
theorem create_box_anchor_points_witness :
    (create_box 2 12 4 (9/5)).center = (4, 129/10) ∧
      (create_box 2 12 4 (9/5)).topCenter = (4, 69/5) := by
  have h := create_box_anchor_points 2 12 4 (9/5)
  constructor
  · rw [h.1]
    norm_num
  · rw [h.2.1]
    norm_num

/-- C9.  When no row survives the drop-missing and AUC-filter steps — which
happens exactly when no row is both complete and AUC-matching —
`preprocess_performance_data` returns successfully with two empty outputs. -/
theorem preprocess_empty_result :
    ∀ rows : List Row,
      (keptRows rows = [] ↔
          ∀ r ∈ rows, ¬(rowComplete r = true ∧ metricHasAUC r = true)) ∧
        (keptRows rows = [] → preprocess_performance_data rows = some ([], [])) := by
  intro rows
  constructor
  · constructor
    · intro hnil r hr hboth
      have : r ∈ keptRows rows :=
        (auc_filter_membership rows r).mpr ⟨hr, hboth.1, hboth.2⟩
      rw [hnil] at this
      exact absurd this (by simp)
    · intro hall
      cases hk : keptRows rows with
      | nil => rfl
      | cons r rest =>
        exfalso
        have hr : r ∈ keptRows rows := by
          rw [hk]
          exact List.mem_cons_self r rest
        have := (auc_filter_membership rows r).mp hr
        exact hall r this.1 ⟨this.2.1, this.2.2⟩
  · intro hnil
    rw [preprocess_performance_data, hnil]
    rfl

/-- Witness for C9: a complete row whose metric `"Accuracy"` lacks `"AUC"`
is filtered out and the preprocessor returns empty outputs without error. -/
theorem preprocess_empty_result_witness :
    preprocess_performance_data [⟨[some "0.9"], some "Accuracy", some "CT"⟩] =
      some ([], []) :=
  (preprocess_empty_result [⟨[some "0.9"], some "Accuracy", some "CT"⟩]).2 (by decide)

/-! ## Helper lemmas: heap accesses -/

theorem getD_append_self : ∀ (l : List Frame) (x : Frame),
    (l ++ [x]).getD l.length [] = x := by
  intro l x
  induction l with
  | nil => rfl
  | cons a as ih => simp [ih]

theorem getD_set_ne : ∀ (l : List Frame) (j : ℕ) (a : Frame) (i : ℕ), i ≠ j →
    (l.set j a).getD i [] = l.getD i [] := by
  intro l
  induction l with
  | nil =>
    intro j a i _
    rfl
  | cons b bs ih =>
    intro j a i hij
    cases j with
    | zero =>
      cases i with
      | zero => exact absurd rfl hij
      | succ k => simp
    | succ m =>
      cases i with
      | zero => simp
      | succ k =>
        have hkm : k ≠ m := by omega
        simpa using ih m a k hkm

theorem preprocessOnHeap_eq (heap : List Frame) (p : ℕ) :
    preprocessOnHeap heap p =
      (match convertRows (keptRows (heap.getD p [])) with
       | some scoreRows =>
         ((heap ++ [dropnaRows (heap.getD p [])]
             ++ [aucRows (dropnaRows (heap.getD p []))]).set (heap.length + 1)
            (convertedFrame (keptRows (heap.getD p []))),
           some (scoreRows,
             (keptRows (heap.getD p [])).map (fun r => r.modality.getD "")))
       | none =>
         (heap ++ [dropnaRows (heap.getD p [])]
            ++ [aucRows (dropnaRows (heap.getD p []))], none)) := by
  simp only [preprocessOnHeap, keptRows]
  rw [getD_append_self]
  rw [getD_append_self]
  simp [List.length_append]

/-- C10.  `preprocess_performance_data` does not mutate the caller's frame:
in the heap model, the function allocates fresh frames for the dropna and
filter results and performs its in-place score assignment only on the second
fresh frame, so every pre-existing heap address — in particular the input
frame — is unchanged, while the returned value agrees with the pure
function. -/
theorem preprocess_no_mutation :
    ∀ (heap : List Frame) (p : ℕ),
      (preprocessOnHeap heap p).2 = preprocess_performance_data (heap.getD p []) ∧
        ∀ i, i < heap.length →
          (preprocessOnHeap heap p).1.getD i [] = heap.getD i [] := by
  intro heap p
  rw [preprocessOnHeap_eq]
  cases hc : convertRows (keptRows (heap.getD p [])) with
  | some scoreRows =>
    constructor
    · show some _ = preprocess_performance_data (heap.getD p [])
      rw [preprocess_performance_data, hc]
    · intro i hi
      show ((heap ++ [dropnaRows (heap.getD p [])]
          ++ [aucRows (dropnaRows (heap.getD p []))]).set (heap.length + 1)
            (convertedFrame (keptRows (heap.getD p [])))).getD i [] = heap.getD i []
      rw [getD_set_ne _ _ _ _ (by omega)]
      rw [List.append_assoc]
      rw [List.getD_append _ _ _ _ hi]
  | none =>
    constructor
    · show none = preprocess_performance_data (heap.getD p [])
      rw [preprocess_performance_data, hc]
    · intro i hi
      show (heap ++ [dropnaRows (heap.getD p [])]
          ++ [aucRows (dropnaRows (heap.getD p []))]).getD i [] = heap.getD i []
      rw [List.append_assoc]
      rw [List.getD_append _ _ _ _ hi]

/-- Witness for C10 on a one-frame heap: after the call the frame at the
caller's address is exactly the input frame, and the returned value matches
the pure preprocessor. -/
theorem preprocess_no_mutation_witness :
    (preprocessOnHeap [[⟨[some "1"], some "AUC", some "CT"⟩]] 0).1.getD 0 []
        = [⟨[some "1"], some "AUC", some "CT"⟩] ∧
      (preprocessOnHeap [[⟨[some "1"], some "AUC", some "CT"⟩]] 0).2
        = preprocess_performance_data [⟨[some "1"], some "AUC", some "CT"⟩] := by
  have h := preprocess_no_mutation [[⟨[some "1"], some "AUC", some "CT"⟩]] 0
  exact ⟨h.2 0 (by decide), h.1⟩
